import Mathlib

/-!
Verification development for the g1 assembler / binary codec / virtual machine
(repository `7Limes/g1`).  The Python sources under `src/g1/` are shallowly
embedded below: pure functions become Lean functions, the mutable
`ProgramContext` becomes explicit state passing, fatal errors (`sys.exit`,
uncaught Python exceptions) become `Except`/`Option` results, and the
fetch-execute `while` loop becomes a fuel-indexed recursion.
-/

deriving instance DecidableEq for Except

/-- The 16 opcode mnemonics, `src/g1/instructions/instructions.py` line 1. -/
inductive Op where
  | mov | movp | add | sub | mul | div | mod | less | equal | not
  | jmp | color | point | line | rect | log
deriving DecidableEq, Repr

/-- `INSTRUCTIONS` list, `instructions.py` line 1 (same order). -/
def INSTRUCTIONS : List Op :=
  [.mov, .movp, .add, .sub, .mul, .div, .mod, .less, .equal, .not,
   .jmp, .color, .point, .line, .rect, .log]

/-- `ARGUMENT_COUNTS` list, `instructions.py` line 2. -/
def ARGUMENT_COUNTS : List Nat := [2, 2, 3, 3, 3, 3, 3, 3, 3, 2, 2, 3, 2, 4, 4, 1]

/-- `ARGUMENT_COUNT_LOOKUP = {i: c for i, c in zip(INSTRUCTIONS, ARGUMENT_COUNTS)}`,
`instructions.py` line 3: arity of an opcode, read off the two zipped tables. -/
def ARGUMENT_COUNT_LOOKUP (op : Op) : Nat :=
  (ARGUMENT_COUNTS.getD (INSTRUCTIONS.indexOf op) 0)

/-- `INSTRUCTION_IDS = {ins: i for i, ins in enumerate(INSTRUCTIONS)}`,
`binary_format.py` line 9. -/
def INSTRUCTION_IDS (op : Op) : Nat := INSTRUCTIONS.indexOf op

/-- The textual mnemonic of an opcode (the string stored in the program JSON). -/
def opName : Op → String
  | .mov => "mov" | .movp => "movp" | .add => "add" | .sub => "sub"
  | .mul => "mul" | .div => "div" | .mod => "mod" | .less => "less"
  | .equal => "equal" | .not => "not" | .jmp => "jmp" | .color => "color"
  | .point => "point" | .line => "line" | .rect => "rect" | .log => "log"

/-- Membership test `token.value in INSTRUCTIONS` (`assembler.py` line 120),
returning the matching opcode. -/
def parseOp (s : String) : Option Op := INSTRUCTIONS.find? (fun op => opName op == s)

/-- `ASSIGNMENT_INSTRUCTIONS` set, `assembler.py` line 49. -/
def ASSIGNMENT_INSTRUCTIONS : List Op :=
  [.mov, .movp, .add, .sub, .mul, .div, .mod, .less, .equal, .not]

/-- An instruction argument as stored in the program JSON: a Python `int`
(literal, including resolved label indices) or a Python `str`.  Strings of the
form `"$n"` are addresses; any other string (possible for meta-variable or
label-declaration tokens in argument position, which `parse_argument_token`
passes through verbatim) is kept as `raw`. -/
inductive Arg where
  | lit (n : Int)
  | addr (n : Int)
  | raw (s : String)
deriving DecidableEq, Repr

/-- One instruction entry `[name, args]` (plus, in debug mode, a source line
number) of the program JSON. -/
structure Instruction where
  name : Op
  args : List Arg
  line : Option Int := none
deriving DecidableEq, Repr

/-- The four meta variables with their defaults, `assembler.py` lines 42-47
(`META_VARIABLES = {'memory': 128, 'width': 100, 'height': 100, 'tickrate': 60}`). -/
structure MetaData where
  memory : Int
  width : Int
  height : Int
  tickrate : Int
deriving DecidableEq, Repr

def META_VARIABLES : MetaData := { memory := 128, width := 100, height := 100, tickrate := 60 }

/-- One data entry `[address, values]` produced by `data.py`. -/
structure DataEntry where
  address : Nat
  values : List Int
deriving DecidableEq, Repr

/-- The `data` key of the program JSON.  Python distinguishes the key being
absent, present with value `None` (which `assemble` stores when `parse_data`
fails, `assembler.py` lines 179-180), and present with a list. -/
inductive DataField where
  | absent
  | null
  | entries (l : List DataEntry)
deriving DecidableEq, Repr

/-- The assembled program JSON (`output_json` of `assemble_tokens`).
`data_entry_count` is never set by the assembler; it appears only in
programs decoded from the binary form with a nonempty data section, because
`parse_to_program_data` deletes that key only in its empty-data branch
(`binary_format.py` lines 114-116). -/
structure ProgramData where
  meta : MetaData
  instructions : List Instruction
  tick : Option Int := none
  start : Option Int := none
  data : DataField := .absent
  source : Option (List String) := none
  data_entry_count : Option Int := none
deriving DecidableEq, Repr

/-- The VM state, `g1.py` class `ProgramContext` (lines 21-35).  The pygame
`surface` is the external rendering collaborator and carries no VM semantics;
`color` is the color register set by `ins_color`. -/
structure ProgramContext where
  program_data : ProgramData
  memory : List Int
  program_counter : Int
  color : Int × Int × Int
deriving DecidableEq, Repr

/-- `ProgramContext.__init__` without a data preload: `self.memory = [0] * amount_memory`,
`self.program_counter = 0`, `self.color = (0, 0, 0)` (`g1.py` lines 24-34). -/
def zeroContext (pd : ProgramData) : ProgramContext :=
  { program_data := pd
    memory := List.replicate pd.meta.memory.toNat 0
    program_counter := 0
    color := (0, 0, 0) }

/-- Fatal VM runtime errors (`g1.py` `error`, which prints and `sys.exit`s),
plus `valueError` for the uncaught Python `ValueError` that `int(arg[1:])`
raises on a raw non-address string argument. -/
inductive RErr where
  | oobGet (index : Int)
  | oobSet (index : Int)
  | divZero
  | valueError
deriving DecidableEq, Repr

/-- `memget` (`g1.py` lines 48-51). -/
def memget (ctx : ProgramContext) (index : Int) : Except RErr Int :=
  if index < 0 ∨ index ≥ (ctx.memory.length : Int) then .error (.oobGet index)
  else .ok (ctx.memory.getD index.toNat 0)

/-- `memset` (`g1.py` lines 53-56). -/
def memset (ctx : ProgramContext) (index : Int) (value : Int) : Except RErr ProgramContext :=
  if index < 0 ∨ index ≥ (ctx.memory.length : Int) then .error (.oobSet index)
  else .ok { ctx with memory := ctx.memory.set index.toNat value }

/-- The `for`-loop-with-append pattern used throughout the Python code:
apply `f` to each element in order, stopping at the first fatal error. -/
def map_except (f : α → Except ε β) : List α → Except ε (List β)
  | [] => .ok []
  | x :: xs =>
    match f x with
    | .error e => .error e
    | .ok y =>
      match map_except f xs with
      | .error e => .error e
      | .ok ys => .ok (y :: ys)

/-- `parse_arguments` (`g1.py` lines 59-60): every argument that is a string is
replaced by `memget` of its numeric part (`int(arg[1:])`); ints pass through.
A raw string whose tail is not an integer makes `int` raise `ValueError`. -/
def parse_arguments (ctx : ProgramContext) (args : List Arg) : Except RErr (List Int) :=
  map_except
    (fun a => match a with
      | .lit n => .ok n
      | .addr n => memget ctx n
      | .raw _ => .error .valueError)
    args

/-- Dispatch of the `ins_*` functions (`g1.py` lines 62-113) on the parsed
(integer) arguments.  Returns the updated context and, for `jmp`, the new
program counter (`ins_jmp` returning a value, all others returning `None`).
Python's `//` and `%` are floor division and floor modulus (`Int.fdiv`,
`Int.fmod`); `point`/`line`/`rect` draw on the external pygame surface and
`log` prints, so none of them touch the VM state. -/
def execInstruction (ctx : ProgramContext) (op : Op) (args : List Int) :
    Except RErr (ProgramContext × Option Int) :=
  match op with
  | .mov => do
    let c ← memset ctx (args.getD 0 0) (args.getD 1 0)
    .ok (c, none)
  | .movp => do
    let v ← memget ctx (args.getD 1 0)
    let c ← memset ctx (args.getD 0 0) v
    .ok (c, none)
  | .add => do
    let c ← memset ctx (args.getD 0 0) (args.getD 1 0 + args.getD 2 0)
    .ok (c, none)
  | .sub => do
    let c ← memset ctx (args.getD 0 0) (args.getD 1 0 - args.getD 2 0)
    .ok (c, none)
  | .mul => do
    let c ← memset ctx (args.getD 0 0) (args.getD 1 0 * args.getD 2 0)
    .ok (c, none)
  | .div =>
    if args.getD 2 0 = 0 then .error .divZero
    else do
      let c ← memset ctx (args.getD 0 0) (Int.fdiv (args.getD 1 0) (args.getD 2 0))
      .ok (c, none)
  | .mod =>
    if args.getD 2 0 = 0 then .error .divZero
    else do
      let c ← memset ctx (args.getD 0 0) (Int.fmod (args.getD 1 0) (args.getD 2 0))
      .ok (c, none)
  | .less => do
    let c ← memset ctx (args.getD 0 0) (if args.getD 1 0 < args.getD 2 0 then 1 else 0)
    .ok (c, none)
  | .equal => do
    let c ← memset ctx (args.getD 0 0) (if args.getD 1 0 = args.getD 2 0 then 1 else 0)
    .ok (c, none)
  | .not => do
    let c ← memset ctx (args.getD 0 0) (if args.getD 1 0 = 0 then 1 else 0)
    .ok (c, none)
  | .jmp =>
    .ok (ctx, if args.getD 1 0 ≠ 0 then some (args.getD 0 0) else none)
  | .color =>
    .ok ({ ctx with color := (args.getD 0 0, args.getD 1 0, args.getD 2 0) }, none)
  | .point => .ok (ctx, none)
  | .line => .ok (ctx, none)
  | .rect => .ok (ctx, none)
  | .log => .ok (ctx, none)

/-- Python list indexing `instructions[program_counter]` with an `int` index:
a negative index counts from the end; an index that is still negative after
adding the length raises `IndexError`. -/
def pyIndex (xs : List α) (i : Int) : Option α :=
  if 0 ≤ i then xs.get? i.toNat
  else
    let j := (xs.length : Int) + i
    if 0 ≤ j then xs.get? j.toNat else none

/-- Outcome of a run of the fetch-execute loop.  `finished` is the loop
condition `program_counter < len(instructions)` failing; `runtimeError` is the
fatal `error(...)`/`sys.exit` path; `indexError` is the uncaught Python
`IndexError` from fetching at a too-negative program counter; `outOfFuel`
marks runs longer than the supplied fuel (the Python loop may diverge). -/
inductive RunOutcome where
  | finished (ctx : ProgramContext)
  | runtimeError (e : RErr) (ctx : ProgramContext)
  | indexError (ctx : ProgramContext)
  | outOfFuel (ctx : ProgramContext)
deriving DecidableEq, Repr

/-- The context carried by a `RunOutcome`. -/
def RunOutcome.ctx : RunOutcome → ProgramContext
  | .finished c => c
  | .runtimeError _ c => c
  | .indexError c => c
  | .outOfFuel c => c

/-- Whether a run ended by the loop condition (clean termination). -/
def RunOutcome.isFinished : RunOutcome → Bool
  | .finished _ => true
  | _ => false

/-- One iteration body of the `while` loop of `start_program_thread`
(`g1.py` lines 164-190), after the instruction has been fetched:
skip `log` when `disable_log`; otherwise decode the arguments, dispatch,
and continue at the returned program counter (or at `pc + 1`). -/
def execStep (disable_log : Bool) (recurse : ProgramContext → RunOutcome)
    (ctx : ProgramContext) (instr : Instruction) : RunOutcome :=
  if disable_log ∧ instr.name = .log then
    recurse { ctx with program_counter := ctx.program_counter + 1 }
  else
    match parse_arguments ctx instr.args with
    | .error e => .runtimeError e ctx
    | .ok parsed =>
      match execInstruction ctx instr.name parsed with
      | .error e => .runtimeError e ctx
      | .ok (ctx', newPc) =>
        match newPc with
        | some npc => recurse { ctx' with program_counter := npc }
        | none => recurse { ctx' with program_counter := ctx'.program_counter + 1 }

/-- The `while program_counter < len(instructions)` fetch-execute loop of
`start_program_thread` (`g1.py` lines 159-190), fuel-indexed. -/
def runLoop (instrs : List Instruction) (disable_log : Bool) :
    Nat → ProgramContext → RunOutcome
  | 0, ctx => .outOfFuel ctx
  | fuel + 1, ctx =>
    if ctx.program_counter < (instrs.length : Int) then
      match pyIndex instrs ctx.program_counter with
      | some instr => execStep disable_log (runLoop instrs disable_log fuel) ctx instr
      | none => .indexError ctx
    else .finished ctx

/-- `start_program_thread(program_context, index, ...)` (`g1.py` line 159):
set the program counter to `index` and run the loop over the program's
instruction list. -/
def start_program_thread (ctx : ProgramContext) (index : Int)
    (disable_log : Bool := false) (fuel : Nat := 1000) : RunOutcome :=
  runLoop ctx.program_data.instructions disable_log fuel
    { ctx with program_counter := index }

/-- The eight fixed input controls polled by the driver
(`g1.py` lines 197-204: RETURN, RSHIFT, z, x, UP, DOWN, LEFT, RIGHT). -/
structure KeyState where
  k_return : Bool
  k_rshift : Bool
  k_z : Bool
  k_x : Bool
  k_up : Bool
  k_down : Bool
  k_left : Bool
  k_right : Bool
deriving DecidableEq, Repr

/-- Python `int(bool)`. -/
def boolToInt (b : Bool) : Int := if b then 1 else 0

/-- `update_reserved_memory` (`g1.py` lines 193-212): builds the 13-value list
(eight key booleans, the four meta values, the frame delta) and assigns it to
`memory[0:len(values)]`; the Python slice assignment is `values ++ memory[13:]`. -/
def update_reserved_memory (ctx : ProgramContext) (keys : KeyState) (delta_ms : Int) :
    ProgramContext :=
  let meta := ctx.program_data.meta
  let values : List Int :=
    [boolToInt keys.k_return, boolToInt keys.k_rshift, boolToInt keys.k_z,
     boolToInt keys.k_x, boolToInt keys.k_up, boolToInt keys.k_down,
     boolToInt keys.k_left, boolToInt keys.k_right,
     meta.memory, meta.width, meta.height, meta.tickrate, delta_ms]
  { ctx with memory := values ++ ctx.memory.drop values.length }

/-! ## Assembler (`src/g1/assembler/assembler.py`) -/

/-- A lexer token (`assembler.py` lines 31-40).  The token payloads are stored
structurally: `metaVariable name` is the token `#name` (value stripped of `#`
by the assembler), `labelName s` is `s:` (value stripped of the colon),
`address n` is `$n`.  Source positions, used only for diagnostics and the
debug-mode line map, are omitted. -/
inductive Token where
  | metaVariable (name : String)
  | number (n : Int)
  | address (n : Nat)
  | labelName (s : String)
  | name (s : String)
  | comment
  | newline
deriving DecidableEq, Repr

/-- Fatal assembler diagnostics (`error(...)` which prints and `sys.exit`s),
plus `stopIteration`/`valueError` for the uncaught Python exceptions raised by
`tokens.next()` on an exhausted stream and by `int()` on a non-numeric
meta-variable value. -/
inductive AsmErr where
  | metaOutsideHeader
  | unknownMetaVariable (s : String)
  | unknownInstruction (s : String)
  | wrongArgumentCount (ins : String) (expected got : Nat)
  | valueOutsideInstruction
  | undefinedLabel (s : String)
  | stopIteration
  | valueError
deriving DecidableEq, Repr

/-- `class AssemblerState(Enum)` (`assembler.py` lines 26-28). -/
inductive AssemblerState where
  | META
  | PROCEDURES
deriving DecidableEq, Repr

/-- The mutable locals of `assemble_tokens`'s first loop (`assembler.py`
lines 94-99): the compiler state, the meta dict under construction, the label
table, the raw instructions `[name token, arg tokens]`, and `instruction_index`. -/
structure AsmState where
  compiler_state : AssemblerState
  meta : MetaData
  labels : List (String × Nat)
  raw_instructions : List (Op × List Token)
  instruction_index : Nat
deriving DecidableEq, Repr

/-- `name in META_VARIABLES` (`assembler.py` line 106). -/
def metaHasKey (name : String) : Bool :=
  name == "memory" || name == "width" || name == "height" || name == "tickrate"

/-- `output_json['meta'][meta_variable_name] = v` (`assembler.py` line 108). -/
def metaSet (m : MetaData) (name : String) (v : Int) : MetaData :=
  if name == "memory" then { m with memory := v }
  else if name == "width" then { m with width := v }
  else if name == "height" then { m with height := v }
  else if name == "tickrate" then { m with tickrate := v }
  else m

/-- `get_until_newline` (`assembler.py` lines 72-81): collect tokens until the
next `NEWLINE`, skipping `COMMENT`s; returns the collected tokens and the
remaining stream, or `none` when the stream is exhausted (`StopIteration`). -/
def get_until_newline : List Token → Option (List Token × List Token)
  | [] => none
  | .comment :: rest => get_until_newline rest
  | .newline :: rest => some ([], rest)
  | t :: rest => (get_until_newline rest).map (fun p => (t :: p.1, p.2))

/-- The first loop of `assemble_tokens` (`assembler.py` lines 101-135):
a single pass over the token stream that collects meta-variable overrides,
the label table and the raw instructions (arity-checked), and flags
stray values.  Duplicate label declarations only warn (first wins).
Structurally recursive on a fuel argument; every step consumes at least one
token, so the fuel `tokens.length + 1` supplied by `assemble_tokens` can
never run out. -/
def phase1 : Nat → List Token → AsmState → Except AsmErr AsmState
  | 0, _, _ => .error .stopIteration
  | _ + 1, [], st => .ok st
  | fuel + 1, .metaVariable name :: rest, st =>
    if st.compiler_state ≠ AssemblerState.META then .error .metaOutsideHeader
    else if metaHasKey name then
      match rest with
      | Token.number v :: rest' => phase1 fuel rest' { st with meta := metaSet st.meta name v }
      | _ :: _ => .error .valueError
      | [] => .error .stopIteration
    else .error (.unknownMetaVariable name)
  | fuel + 1, .labelName s :: rest, st =>
    let st' := { st with compiler_state := AssemblerState.PROCEDURES }
    if (st'.labels.lookup s).isSome then phase1 fuel rest st'
    else phase1 fuel rest { st' with labels := st'.labels ++ [(s, st'.instruction_index)] }
  | fuel + 1, .name s :: rest, st =>
    match parseOp s with
    | none => .error (.unknownInstruction s)
    | some op =>
      match get_until_newline rest with
      | none => .error .stopIteration
      | some (instruction_args, rest') =>
        if instruction_args.length ≠ ARGUMENT_COUNT_LOOKUP op then
          .error (.wrongArgumentCount s (ARGUMENT_COUNT_LOOKUP op) instruction_args.length)
        else
          phase1 fuel rest'
            { st with
              raw_instructions := st.raw_instructions ++ [(op, instruction_args)]
              instruction_index := st.instruction_index + 1 }
  | _ + 1, .number _ :: _, _ => .error .valueOutsideInstruction
  | _ + 1, .address _ :: _, _ => .error .valueOutsideInstruction
  | fuel + 1, .comment :: rest, st => phase1 fuel rest st
  | fuel + 1, .newline :: rest, st => phase1 fuel rest st

/-- `parse_argument_token` (`assembler.py` lines 84-91): a `NUMBER` becomes an
int literal; a `NAME` is looked up in the label table (undefined is fatal) and
becomes the label's instruction index; every other token's string value is
returned verbatim (for an `ADDRESS` token that value is `"$n"`, i.e. `addr n`;
meta-variable and label tokens yield their raw text; comments and newlines
never reach argument position because `get_until_newline` filters them). -/
def parse_argument_token (labels : List (String × Nat)) : Token → Except AsmErr Arg
  | .number n => .ok (.lit n)
  | .name s =>
    match labels.lookup s with
    | some k => .ok (.lit (k : Int))
    | none => .error (.undefinedLabel s)
  | .address n => .ok (.addr (n : Int))
  | .metaVariable s => .ok (.raw ("#" ++ s))
  | .labelName s => .ok (.raw (s ++ ":"))
  | .comment => .ok (.raw "()")
  | .newline => .ok (.raw "\n")

/-- One iteration of the second loop of `assemble_tokens` (`assembler.py`
lines 139-148): resolve the collected argument tokens of one raw instruction.
The reserved-memory warning (line 144-145) only prints; debug mode, which
would append a source line number, is not exercised here (positions are not
part of the token model), so `line := none`. -/
def resolve_instruction (labels : List (String × Nat)) (ri : Op × List Token) :
    Except AsmErr Instruction := do
  let instruction_args ← map_except (parse_argument_token labels) ri.2
  .ok { name := ri.1, args := instruction_args, line := none }

/-- The initial locals of `assemble_tokens` (`assembler.py` lines 95-99) for a
given initial compiler state (the `assemble` entry point passes
`AssemblerState.META`). -/
def init_asm_state (compiler_state : AssemblerState) : AsmState :=
  { compiler_state := compiler_state
    meta := META_VARIABLES
    labels := []
    raw_instructions := []
    instruction_index := 0 }

/-- `assemble_tokens` (`assembler.py` lines 94-160), non-debug mode: run the
collection loop over the whole token stream, then resolve every raw
instruction's arguments against the completed label table, and emit the
program JSON with `tick`/`start` taken from the label table when present
(a missing `tick` only prints a warning). -/
def assemble_tokens (tokens : List Token) (compiler_state : AssemblerState) :
    Except AsmErr ProgramData := do
  let st ← phase1 (tokens.length + 1) tokens (init_asm_state compiler_state)
  let instructions ← map_except (resolve_instruction st.labels) st.raw_instructions
  .ok { meta := st.meta
        instructions := instructions
        tick := (st.labels.lookup "tick").map (fun n => (n : Int))
        start := (st.labels.lookup "start").map (fun n => (n : Int)) }

/-- The data-attachment step of `assemble` (`assembler.py` lines 177-180):
`output_json['data'] = parse_data(...)`.  When `parse_data` failed (returned
`None`), the key is still stored — with value `None` — and assembly continues. -/
def assemble_with_data (p : ProgramData) (parsed : Option (List DataEntry)) : ProgramData :=
  { p with data := match parsed with | none => .null | some l => .entries l }

/-! ## Data loader (`src/g1/assembler/data.py`) -/

/-- A file on disk as the data loader sees it: its raw bytes (used verbatim by
`F`-type entries) and the numbers `parse_file` decodes from it (for `f`-type
entries; image decoding via PIL is the external byte-decoding collaborator). -/
structure GFile where
  raw : List Int
  decoded : List Int
deriving DecidableEq, Repr

/-- The payload of a `b`-type line after matching against `HEX_REGEX`
(`data.py` lines 66-70): either an even-length hex string decoded to its
byte values, or a payload the regex rejects. -/
inductive HexPayload where
  | valid (bytes : List Int)
  | invalid
deriving DecidableEq, Repr

/-- One line of a data descriptor file after matching against
`DATA_LINE_REGEX = r'^(\d+) ([fFbs]) (.+)$'` (`data.py` line 11):
`malformed` is a line the regex rejects; the other variants carry the parsed
address and payload for the four entry types `b`, `s`, `f`, `F`
(for `s` the payload is the character codes of the payload string). -/
inductive DataLine where
  | malformed
  | byteLine (address : Nat) (payload : HexPayload)
  | stringLine (address : Nat) (chars : List Int)
  | fileLine (address : Nat) (path : String)
  | fileRawLine (address : Nat) (path : String)
deriving DecidableEq, Repr

/-- `add_data_entry` (`data.py` lines 45-51): `True` (entry accepted) unless
`address + len(numbers) > memory_size`. -/
def add_data_entry (memory_size : Nat) (entry : DataEntry) : Bool :=
  !(decide (entry.address + entry.values.length > memory_size))

/-- `parse_data` (`data.py` lines 54-105) over the pre-lexed lines, with `fs`
standing for the file system seen through `os.path.isfile`/`open`/`parse_file`.
Any malformed line, invalid hex payload, missing file, or `add_data_entry`
rejection aborts the whole parse with `None`; note that `F`-type entries are
appended directly (`data.py` lines 86-88), bypassing `add_data_entry` and its
capacity check.  The overlap scan at the end (lines 98-103) only prints
warnings and does not change the result. -/
def parse_data (fs : String → Option GFile) (memory_size : Nat) :
    List DataLine → Option (List DataEntry)
  | [] => some []
  | dataLine :: rest =>
    match dataLine with
    | .malformed => none
    | .byteLine a payload =>
      match payload with
      | .invalid => none
      | .valid bytes =>
        let entry : DataEntry := ⟨a, bytes⟩
        if add_data_entry memory_size entry then
          (parse_data fs memory_size rest).map (fun l => entry :: l)
        else none
    | .stringLine a chars =>
      let entry : DataEntry := ⟨a, (chars.length : Int) :: chars⟩
      if add_data_entry memory_size entry then
        (parse_data fs memory_size rest).map (fun l => entry :: l)
      else none
    | .fileLine a path =>
      match fs path with
      | none => none
      | some f =>
        let entry : DataEntry := ⟨a, f.decoded⟩
        if add_data_entry memory_size entry then
          (parse_data fs memory_size rest).map (fun l => entry :: l)
        else none
    | .fileRawLine a path =>
      match fs path with
      | none => none
      | some f =>
        (parse_data fs memory_size rest).map
          (fun l => DataEntry.mk a f.raw :: l)

/-- The per-line success condition of `parse_data`: what must hold of a line
for the parse not to abort on it.  `F`-type lines only need the file to exist
(no capacity check); all others also need `address + len(values) ≤ memory`. -/
def data_line_ok (fs : String → Option GFile) (memory_size : Nat) : DataLine → Bool
  | .malformed => false
  | .byteLine a payload =>
    match payload with
    | .invalid => false
    | .valid bytes => decide (a + bytes.length ≤ memory_size)
  | .stringLine a chars => decide (a + (chars.length + 1) ≤ memory_size)
  | .fileLine a path =>
    match fs path with
    | none => false
    | some f => decide (a + f.decoded.length ≤ memory_size)
  | .fileRawLine _ path => (fs path).isSome

/-! ## Binary codec (`src/g1/binary/binary_format.py`)

The `construct` declarations (`G1Argument`, `G1Instruction`, `G1DataEntry`,
`G1BinaryFormat`) describe a big-endian byte layout; `format_json` prepares
the program JSON for `G1BinaryFormat.build` and `parse_to_program_data`
re-hydrates the parsed container.  Below, bytes are `Nat`s in `[0, 256)` and
the two directions are implemented directly over that layout. -/

/-- `ARG_TYPE_LITERAL` (`binary_format.py` line 12). -/
def ARG_TYPE_LITERAL : Nat := 0

/-- `ARG_TYPE_ADDRESS` (`binary_format.py` line 13). -/
def ARG_TYPE_ADDRESS : Nat := 1

/-- Big-endian `Int8ub` emission. -/
def u8bytes (n : Nat) : List Nat := [n % 256]

/-- Big-endian `Int16ub` emission. -/
def u16bytes (n : Nat) : List Nat := [n / 256 % 256, n % 256]

/-- Big-endian `Int32ub` emission. -/
def u32bytes (n : Nat) : List Nat :=
  [n / 16777216 % 256, n / 65536 % 256, n / 256 % 256, n % 256]

/-- Big-endian `Int32sb` emission (two's complement). -/
def i32bytes (z : Int) : List Nat := u32bytes (z % 4294967296).toNat

/-- `'type' / Int8ub, 'value' / Int32sb` for one argument (`G1Argument`),
with the `Literal`/`Address` discrimination of `format_json` lines 66-70:
an int argument is a literal, a `"$n"` string an address.  A raw string
argument would make `int(argument[1:])` raise, hence `none`. -/
def encodeArg : Arg → Option (List Nat)
  | .lit n => some (u8bytes ARG_TYPE_LITERAL ++ i32bytes n)
  | .addr n => some (u8bytes ARG_TYPE_ADDRESS ++ i32bytes n)
  | .raw _ => none

/-- The `for`-loop-with-append pattern in a context where failure is an
uncaught Python exception: apply `f` in order, `none` aborting everything. -/
def map_option (f : α → Option β) : List α → Option (List β)
  | [] => some []
  | x :: xs =>
    match f x with
    | none => none
    | some y =>
      match map_option f xs with
      | none => none
      | some ys => some (y :: ys)

/-- One instruction (`G1Instruction`): `Int8ub` opcode id followed by the
arguments; the argument count is not stored (`format_json` lines 62-77). -/
def encodeInstruction (i : Instruction) : Option (List Nat) := do
  let argBytes ← map_option encodeArg i.args
  some (u8bytes (INSTRUCTION_IDS i.name) ++ argBytes.flatten)

/-- One data entry (`G1DataEntry`): `Int32ub` address, `Int32ub` size,
then the values as `Int32sb` (`format_json` lines 79-84). -/
def encodeDataEntry (e : DataEntry) : List Nat :=
  u32bytes e.address ++ u32bytes e.values.length ++ (e.values.map i32bytes).flatten

/-- `format_json` followed by `G1BinaryFormat.build` (`assembler.py` line
186-187): signature, meta fields, `tick`/`start` with `-1` for absence
(`setdefault`, `format_json` lines 59-60), instruction count and
instructions, data entry count and entries (count `0` and no bytes when the
`data` key is absent).  A `data` key equal to `None` makes `format_json`
crash on iteration (line 81), and a raw string argument makes it crash on
`int(argument[1:])` (line 70): both are `none`. -/
def g1_build (p : ProgramData) : Option (List Nat) := do
  let instrBytes ← map_option encodeInstruction p.instructions
  let dataEntries ← match p.data with
    | .null => none
    | .absent => some ([] : List DataEntry)
    | .entries l => some l
  some
    ([103, 49]
      ++ u32bytes p.meta.memory.toNat
      ++ u16bytes p.meta.width.toNat
      ++ u16bytes p.meta.height.toNat
      ++ u16bytes p.meta.tickrate.toNat
      ++ i32bytes (p.tick.getD (-1))
      ++ i32bytes (p.start.getD (-1))
      ++ u32bytes p.instructions.length
      ++ instrBytes.flatten
      ++ u32bytes dataEntries.length
      ++ (dataEntries.map encodeDataEntry).flatten)

/-- Consume one byte; `none` is `construct`'s truncated-buffer error. -/
def takeByte : List Nat → Option (Nat × List Nat)
  | [] => none
  | b :: rest => some (b, rest)

/-- Consume a big-endian `Int16ub`. -/
def takeU16 (bs : List Nat) : Option (Nat × List Nat) := do
  let (a, r) ← takeByte bs
  let (b, r) ← takeByte r
  some (a * 256 + b, r)

/-- Consume a big-endian `Int32ub`. -/
def takeU32 (bs : List Nat) : Option (Nat × List Nat) := do
  let (a, r) ← takeByte bs
  let (b, r) ← takeByte r
  let (c, r) ← takeByte r
  let (d, r) ← takeByte r
  some (((a * 256 + b) * 256 + c) * 256 + d, r)

/-- Consume a big-endian `Int32sb` (two's complement). -/
def takeI32 (bs : List Nat) : Option (Int × List Nat) := do
  let (v, r) ← takeU32 bs
  some (if v < 2147483648 then (v : Int) else (v : Int) - 4294967296, r)

/-- Consume `n` items with the item decoder `f` (`construct`'s `Array`). -/
def takeN (f : List Nat → Option (α × List Nat)) :
    Nat → List Nat → Option (List α × List Nat)
  | 0, bs => some ([], bs)
  | n + 1, bs => do
    let (x, r) ← f bs
    let (xs, r') ← takeN f n r
    some (x :: xs, r')

/-- Decode one argument, re-hydrating the `Literal`/`Address` distinction
(`convert_argument`, `binary_format.py` lines 118-121: type `0` is a literal,
anything else an address `"$value"`). -/
def takeArgument (bs : List Nat) : Option (Arg × List Nat) := do
  let (t, r) ← takeByte bs
  let (v, r) ← takeI32 r
  some (if t = ARG_TYPE_LITERAL then Arg.lit v else Arg.addr v, r)

/-- Decode one instruction: the argument count is derived from the opcode id
via `ARGUMENT_COUNTS[ctx.id]` (`G1Instruction`'s `Computed`, line 24); an id
outside the table is a Python `IndexError` (`none`), and the instruction name
is `INSTRUCTIONS[id]` (line 125). -/
def takeInstruction (bs : List Nat) : Option (Instruction × List Nat) := do
  let (id, r) ← takeByte bs
  let op ← INSTRUCTIONS.get? id
  let cnt ← ARGUMENT_COUNTS.get? id
  let (args, r') ← takeN takeArgument cnt r
  some ({ name := op, args := args, line := none }, r')

/-- Decode one data entry (`G1DataEntry` plus the `[address, values]`
re-shaping of `parse_to_program_data` lines 130-134). -/
def takeDataEntry (bs : List Nat) : Option (DataEntry × List Nat) := do
  let (a, r) ← takeU32 bs
  let (size, r) ← takeU32 r
  let (values, r') ← takeN takeI32 size r
  some ({ address := a, values := values }, r')

/-- `parse_to_program_data` (`binary_format.py` lines 103-136) over
`G1BinaryFormat.parse`: check the `"g1"` signature, read the meta fields,
`tick`/`start` (`-1` dropped back to absent, lines 110-113), the
instructions, and the data entries.  `signature` and `instruction_count`
are always deleted, but `data_entry_count` is deleted only together with an
empty `data` section (lines 114-116), so a decode with nonempty data keeps
the `data_entry_count` key.  `construct` ignores any bytes after the parsed
fields. -/
def parse_to_program_data (bs : List Nat) : Option ProgramData := do
  let (s1, r) ← takeByte bs
  let (s2, r) ← takeByte r
  if s1 = 103 ∧ s2 = 49 then
    let (mem, r) ← takeU32 r
    let (w, r) ← takeU16 r
    let (h, r) ← takeU16 r
    let (tr, r) ← takeU16 r
    let (tickv, r) ← takeI32 r
    let (startv, r) ← takeI32 r
    let (icount, r) ← takeU32 r
    let (instrs, r) ← takeN takeInstruction icount r
    let (dcount, r) ← takeU32 r
    let (dentries, _) ← takeN takeDataEntry dcount r
    some
      { meta := { memory := mem, width := w, height := h, tickrate := tr }
        instructions := instrs
        tick := if tickv = -1 then none else some tickv
        start := if startv = -1 then none else some startv
        data := match dentries with
          | [] => .absent
          | l => .entries l
        source := none
        data_entry_count := match dentries with
          | [] => none
          | _ => some (dcount : Int) }
  else none

/-- Validity of one argument for the wire format: a `Literal` or `Address`
whose value fits `Int32sb` (raw strings crash `format_json`). -/
def ValidArg : Arg → Prop
  | .lit n => -2147483648 ≤ n ∧ n < 2147483648
  | .addr n => -2147483648 ≤ n ∧ n < 2147483648
  | .raw _ => False

/-- Validity of one instruction: wire-representable arguments whose count is
exactly the static table's arity for the opcode (the decoder derives the
count from the table, so a mismatch would misparse). -/
def ValidInstruction (i : Instruction) : Prop :=
  (∀ a ∈ i.args, ValidArg a) ∧ i.args.length = ARGUMENT_COUNT_LOOKUP i.name

/-- Validity of one data entry: `Int32ub` address and size, `Int32sb` values. -/
def ValidDataEntry (e : DataEntry) : Prop :=
  e.address < 4294967296 ∧ e.values.length < 4294967296 ∧
    ∀ v ∈ e.values, -2147483648 ≤ v ∧ v < 2147483648

/-- Validity of the `data` field: absent, or a bounded list of valid
entries; a `None` value crashes `format_json`. -/
def ValidDataField : DataField → Prop
  | .absent => True
  | .null => False
  | .entries l => l.length < 4294967296 ∧ ∀ e ∈ l, ValidDataEntry e

/-- A program JSON the binary codec can persist: meta fields in `Int32ub` /
`Int16ub` range, `tick`/`start` absent or in `Int32sb` range, a bounded
instruction list of valid instructions, and a `data` field that is absent or
a bounded list of valid entries (`None` crashes `format_json`). -/
def ValidProgram (p : ProgramData) : Prop :=
  (0 ≤ p.meta.memory ∧ p.meta.memory < 4294967296) ∧
  (0 ≤ p.meta.width ∧ p.meta.width < 65536) ∧
  (0 ≤ p.meta.height ∧ p.meta.height < 65536) ∧
  (0 ≤ p.meta.tickrate ∧ p.meta.tickrate < 65536) ∧
  (∀ t ∈ p.tick, -2147483648 ≤ t ∧ t < 2147483648) ∧
  (∀ s ∈ p.start, -2147483648 ≤ s ∧ s < 2147483648) ∧
  p.instructions.length < 4294967296 ∧
  (∀ i ∈ p.instructions, ValidInstruction i) ∧
  ValidDataField p.data

instance : DecidablePred ValidArg := fun a =>
  match a with
  | .lit _ => by unfold ValidArg; infer_instance
  | .addr _ => by unfold ValidArg; infer_instance
  | .raw _ => by unfold ValidArg; infer_instance

instance : DecidablePred ValidInstruction := fun i => by
  unfold ValidInstruction; infer_instance

instance : DecidablePred ValidDataEntry := fun e => by
  unfold ValidDataEntry; infer_instance

instance : DecidablePred ValidDataField := fun d =>
  match d with
  | .absent => by unfold ValidDataField; infer_instance
  | .null => by unfold ValidDataField; infer_instance
  | .entries _ => by unfold ValidDataField; infer_instance

instance : DecidablePred ValidProgram := fun p => by
  unfold ValidProgram; infer_instance

/-- What decoding an encoded program actually yields: debug-only fields
(source text, per-instruction line numbers) are dropped, a `tick`/`start`
holding the `-1` absence sentinel becomes absent, an absent-or-empty data
section becomes absent — and, when the data section is nonempty, the
decoder leaves the `data_entry_count` key behind (it is only deleted in the
empty-data branch). -/
def normalize_program (p : ProgramData) : ProgramData :=
  { meta := p.meta
    instructions := p.instructions.map (fun i => { name := i.name, args := i.args, line := none })
    tick := if p.tick = some (-1) then none else p.tick
    start := if p.start = some (-1) then none else p.start
    data := match p.data with
      | .entries (e :: l) => .entries (e :: l)
      | _ => .absent
    source := none
    data_entry_count := match p.data with
      | .entries (e :: l) => some (((e :: l).length : Nat) : Int)
      | _ => none }

/-- The identification claim C2 asserts, following its words: round trip
modulo ONLY the `-1` sentinels, the empty-data drop, and the debug-only
fields — in particular with no stray `data_entry_count` key on the result. -/
def normalize_program_claimed (p : ProgramData) : ProgramData :=
  { normalize_program p with data_entry_count := none }

/-! ## Helper lemmas -/

theorem map_except_cons_ok {f : α → Except ε β} {x : α} {xs : List α} {ys : List β}
    (h : map_except f (x :: xs) = .ok ys) :
    ∃ y ys', f x = .ok y ∧ map_except f xs = .ok ys' ∧ ys = y :: ys' := by
  simp only [map_except] at h
  cases hfx : f x with
  | error e => rw [hfx] at h; simp at h
  | ok y =>
    rw [hfx] at h
    cases hxs : map_except f xs with
    | error e => rw [hxs] at h; simp at h
    | ok ys' =>
      rw [hxs] at h
      simp only [Except.ok.injEq] at h
      subst h
      exact ⟨y, ys', rfl, rfl, rfl⟩

theorem map_except_ok_length {f : α → Except ε β} :
    ∀ {xs : List α} {ys : List β}, map_except f xs = .ok ys → ys.length = xs.length := by
  intro xs
  induction xs with
  | nil => intro ys h; simp only [map_except] at h; cases h; rfl
  | cons x xs ih =>
    intro ys h
    obtain ⟨y, ys', _, h2, h3⟩ := map_except_cons_ok h
    subst h3
    simp [ih h2]

theorem map_except_ok_get {f : α → Except ε β} :
    ∀ {xs : List α} {ys : List β}, map_except f xs = .ok ys →
      ∀ i x, xs.get? i = some x → ∃ y, f x = .ok y ∧ ys.get? i = some y := by
  intro xs
  induction xs with
  | nil => intro ys _ i x hx; simp at hx
  | cons a as ih =>
    intro ys h i x hx
    obtain ⟨y, ys', h1, h2, h3⟩ := map_except_cons_ok h
    subst h3
    match i with
    | 0 =>
      simp only [List.get?] at hx
      cases hx
      exact ⟨y, h1, rfl⟩
    | i + 1 =>
      simp only [List.get?] at hx ⊢
      exact ih h2 i x hx

theorem map_except_ok_mem {f : α → Except ε β} {xs : List α} {ys : List β}
    (h : map_except f xs = .ok ys) : ∀ x ∈ xs, ∃ y, f x = .ok y := by
  intro x hx
  obtain ⟨i, hi⟩ := List.get?_of_mem hx
  obtain ⟨y, hy, _⟩ := map_except_ok_get h i x hi
  exact ⟨y, hy⟩

/-! ## Claim theorems -/

/-- C3: executing `jmp target,cond` — if the decoded condition value is
nonzero, the program counter is set to the decoded target (any target,
including `0`, from which the loop resumes), and if it is zero the jump
returns no new program counter, so the loop's normal `+ 1` increment applies
and execution falls through to the next instruction. -/
theorem c3_jmp_semantics (instrs : List Instruction) (dl : Bool) (fuel : Nat)
    (ctx : ProgramContext) (inst : Instruction) (t c : Int)
    (hpc : ctx.program_counter < (instrs.length : Int))
    (hfetch : pyIndex instrs ctx.program_counter = some inst)
    (hname : inst.name = .jmp)
    (hargs : parse_arguments ctx inst.args = .ok [t, c]) :
    runLoop instrs dl (fuel + 1) ctx =
      runLoop instrs dl fuel
        { ctx with program_counter := if c ≠ 0 then t else ctx.program_counter + 1 } := by
  simp only [runLoop, if_pos hpc, hfetch]
  simp only [execStep, hname]
  have hlog : ¬(dl = true ∧ Op.jmp = Op.log) := by simp
  rw [if_neg hlog, hargs]
  simp only [execInstruction, List.getD]
  by_cases hc : c = 0
  · subst hc
    simp
  · simp [hc]

/-- Witness for C3: a one-instruction program `jmp 0 1` at program counter 0;
the truthy condition sends the program counter to target 0. -/
theorem c3_jmp_semantics_witness :
    runLoop [⟨Op.jmp, [Arg.lit 0, Arg.lit 1], none⟩] false 2
        ⟨⟨META_VARIABLES, [⟨Op.jmp, [Arg.lit 0, Arg.lit 1], none⟩], none, none, .absent, none, none⟩,
          [0, 0], 0, (0, 0, 0)⟩ =
      runLoop [⟨Op.jmp, [Arg.lit 0, Arg.lit 1], none⟩] false 1
        ⟨⟨META_VARIABLES, [⟨Op.jmp, [Arg.lit 0, Arg.lit 1], none⟩], none, none, .absent, none, none⟩,
          [0, 0], if (1 : Int) ≠ 0 then 0 else 0 + 1, (0, 0, 0)⟩ :=
  c3_jmp_semantics _ false 1 _ _ 0 1 (by decide) rfl rfl rfl

/-- C4: executing `div` or `mod` with a decoded divisor of `0` makes the run
halt immediately with the fatal division-by-zero runtime error, and the
context — in particular its memory — is returned unchanged: the error is
raised before any `memset`. -/
theorem c4_division_by_zero (instrs : List Instruction) (dl : Bool) (fuel : Nat)
    (ctx : ProgramContext) (inst : Instruction) (decoded : List Int)
    (hpc : ctx.program_counter < (instrs.length : Int))
    (hfetch : pyIndex instrs ctx.program_counter = some inst)
    (hname : inst.name = .div ∨ inst.name = .mod)
    (hargs : parse_arguments ctx inst.args = .ok decoded)
    (hdiv : decoded.getD 2 0 = 0) :
    runLoop instrs dl (fuel + 1) ctx = .runtimeError .divZero ctx ∧
      (runLoop instrs dl (fuel + 1) ctx).ctx.memory = ctx.memory := by
  have hmain : runLoop instrs dl (fuel + 1) ctx = .runtimeError .divZero ctx := by
    simp only [runLoop, if_pos hpc, hfetch]
    cases hname with
    | inl h =>
      simp only [execStep, h]
      have hlog : ¬(dl = true ∧ Op.div = Op.log) := by simp
      rw [if_neg hlog, hargs]
      simp only [execInstruction, if_pos hdiv]
    | inr h =>
      simp only [execStep, h]
      have hlog : ¬(dl = true ∧ Op.mod = Op.log) := by simp
      rw [if_neg hlog, hargs]
      simp only [execInstruction, if_pos hdiv]
  exact ⟨hmain, by rw [hmain]; rfl⟩

/-- Witness for C4: the spec's own example `div $0 10 0` on zero-filled
memory of 2 cells; the decoded arguments are `[0, 10, 0]` and the run stops
with the division-by-zero error, memory untouched. -/
theorem c4_division_by_zero_witness :
    runLoop [⟨Op.div, [Arg.addr 0, Arg.lit 10, Arg.lit 0], none⟩] false 3
        ⟨⟨META_VARIABLES, [⟨Op.div, [Arg.addr 0, Arg.lit 10, Arg.lit 0], none⟩], none, none,
            .absent, none, none⟩, [0, 0], 0, (0, 0, 0)⟩ =
        .runtimeError .divZero
          ⟨⟨META_VARIABLES, [⟨Op.div, [Arg.addr 0, Arg.lit 10, Arg.lit 0], none⟩], none, none,
              .absent, none, none⟩, [0, 0], 0, (0, 0, 0)⟩ ∧
      (runLoop [⟨Op.div, [Arg.addr 0, Arg.lit 10, Arg.lit 0], none⟩] false 3
        ⟨⟨META_VARIABLES, [⟨Op.div, [Arg.addr 0, Arg.lit 10, Arg.lit 0], none⟩], none, none,
            .absent, none, none⟩, [0, 0], 0, (0, 0, 0)⟩).ctx.memory = [0, 0] :=
  c4_division_by_zero _ false 2 _ _ [0, 10, 0] (by decide) rfl (Or.inl rfl) rfl rfl

theorem get?_drop_add (l : List α) (i j : Nat) : (l.drop i).get? j = l.get? (i + j) := by
  induction i generalizing l with
  | zero => simp
  | succ n ih =>
    cases l with
    | nil => simp
    | cons x xs =>
      simp only [List.drop_succ_cons, ih, List.get?_cons_succ, Nat.succ_add]

/-- C9: the driver's reserved-memory update writes exactly cells 0 through 12
of the memory — cells 0-7 the eight input-control booleans, cells 8-11 the
echoed `memory`, `width`, `height`, `tickrate` meta values, cell 12 the
milliseconds since the previous frame — and every memory cell at index 13 and
above is unchanged. -/
theorem c9_reserved_memory_update (ctx : ProgramContext) (keys : KeyState) (delta_ms : Int) :
    ((update_reserved_memory ctx keys delta_ms).memory.get? 0 = some (boolToInt keys.k_return)) ∧
    ((update_reserved_memory ctx keys delta_ms).memory.get? 1 = some (boolToInt keys.k_rshift)) ∧
    ((update_reserved_memory ctx keys delta_ms).memory.get? 2 = some (boolToInt keys.k_z)) ∧
    ((update_reserved_memory ctx keys delta_ms).memory.get? 3 = some (boolToInt keys.k_x)) ∧
    ((update_reserved_memory ctx keys delta_ms).memory.get? 4 = some (boolToInt keys.k_up)) ∧
    ((update_reserved_memory ctx keys delta_ms).memory.get? 5 = some (boolToInt keys.k_down)) ∧
    ((update_reserved_memory ctx keys delta_ms).memory.get? 6 = some (boolToInt keys.k_left)) ∧
    ((update_reserved_memory ctx keys delta_ms).memory.get? 7 = some (boolToInt keys.k_right)) ∧
    ((update_reserved_memory ctx keys delta_ms).memory.get? 8 = some ctx.program_data.meta.memory) ∧
    ((update_reserved_memory ctx keys delta_ms).memory.get? 9 = some ctx.program_data.meta.width) ∧
    ((update_reserved_memory ctx keys delta_ms).memory.get? 10 = some ctx.program_data.meta.height) ∧
    ((update_reserved_memory ctx keys delta_ms).memory.get? 11 = some ctx.program_data.meta.tickrate) ∧
    ((update_reserved_memory ctx keys delta_ms).memory.get? 12 = some delta_ms) ∧
    ∀ i : Nat, (update_reserved_memory ctx keys delta_ms).memory.get? (i + 13) =
      ctx.memory.get? (i + 13) := by
  refine ⟨rfl, rfl, rfl, rfl, rfl, rfl, rfl, rfl, rfl, rfl, rfl, rfl, rfl, ?_⟩
  intro i
  show (ctx.memory.drop 13).get? i = ctx.memory.get? (i + 13)
  rw [get?_drop_add, Nat.add_comm]

/-- C10 (amended): the fetch-execute loop only stops when the program counter
is `≥ len(instructions)`, so after a `jmp` lands on a negative program
counter `pc` with `len(instructions) + pc ≥ 0`, the loop neither exits nor
raises: Python's negative indexing fetches the instruction at index
`len(instructions) + pc` and execution continues with it from near the end of
the instruction array.  (A more negative program counter instead crashes the
fetch with an `IndexError`; see the counterexample.) -/
theorem c10_negative_pc (instrs : List Instruction) (dl : Bool) (fuel : Nat)
    (ctx : ProgramContext) (j : Nat)
    (h1 : ctx.program_counter < 0)
    (hj : (j : Int) = (instrs.length : Int) + ctx.program_counter) :
    ∃ inst,
      instrs.get? j = some inst ∧
      pyIndex instrs ctx.program_counter = some inst ∧
      runLoop instrs dl (fuel + 1) ctx =
        execStep dl (runLoop instrs dl fuel) ctx inst := by
  have hpc : ctx.program_counter < (instrs.length : Int) := by omega
  have hlen : j < instrs.length := by omega
  have hget : instrs.get? j = some (instrs.get ⟨j, hlen⟩) := List.get?_eq_get hlen
  have hpy : pyIndex instrs ctx.program_counter = some (instrs.get ⟨j, hlen⟩) := by
    simp only [pyIndex]
    rw [if_neg (by omega), if_pos (by omega)]
    have htn : ((instrs.length : Int) + ctx.program_counter).toNat = j := by omega
    rw [htn]
    exact hget
  refine ⟨_, hget, hpy, ?_⟩
  simp only [runLoop, if_pos hpc, hpy]

/-- Witness for C10 (amended): a one-instruction program entered at program
counter `-1`; the fetch resolves to index `0` and the loop proceeds with that
instruction. -/
theorem c10_negative_pc_witness :
    pyIndex ([⟨Op.log, [Arg.lit 7], none⟩] : List Instruction) (-1) =
      some (⟨Op.log, [Arg.lit 7], none⟩ : Instruction) ∧
    runLoop [⟨Op.log, [Arg.lit 7], none⟩] false 2
        ⟨⟨META_VARIABLES, [⟨Op.log, [Arg.lit 7], none⟩], none, none, .absent, none, none⟩,
          [0], -1, (0, 0, 0)⟩ =
      execStep false (runLoop [⟨Op.log, [Arg.lit 7], none⟩] false 1)
        ⟨⟨META_VARIABLES, [⟨Op.log, [Arg.lit 7], none⟩], none, none, .absent, none, none⟩,
          [0], -1, (0, 0, 0)⟩ ⟨Op.log, [Arg.lit 7], none⟩ := by
  obtain ⟨inst, h1, h2, h3⟩ :=
    c10_negative_pc [⟨Op.log, [Arg.lit 7], none⟩] false 1
      ⟨⟨META_VARIABLES, [⟨Op.log, [Arg.lit 7], none⟩], none, none, .absent, none, none⟩,
        [0], -1, (0, 0, 0)⟩ 0 (by decide) (by decide)
  have hinst : inst = ⟨Op.log, [Arg.lit 7], none⟩ := by
    simpa using h1.symm
  subst hinst
  exact ⟨h2, h3⟩

/-- Counterexample to C10 as stated: a `jmp` with truthy condition and target
`-5` in a one-instruction program.  The loop does not fetch at
`len(instructions) + pc` (that index is still negative) and execution does
not continue: the very next fetch raises a Python `IndexError`. -/
theorem c10_counterexample :
    runLoop [⟨Op.jmp, [Arg.lit (-5), Arg.lit 1], none⟩] false 3
        ⟨⟨META_VARIABLES, [⟨Op.jmp, [Arg.lit (-5), Arg.lit 1], none⟩], none, none, .absent, none, none⟩,
          [0], 0, (0, 0, 0)⟩ =
      .indexError
        ⟨⟨META_VARIABLES, [⟨Op.jmp, [Arg.lit (-5), Arg.lit 1], none⟩], none, none, .absent, none, none⟩,
          [0], -5, (0, 0, 0)⟩ ∧
    pyIndex [⟨Op.jmp, [Arg.lit (-5), Arg.lit 1], none⟩] (-5) = (none : Option Instruction) := by
  exact ⟨by decide, by decide⟩

set_option maxRecDepth 8000 in
/-- Counterexample to C1 as stated: assembling and executing `mov $5 10`
followed by `mov $6 $5` (default meta, zero-filled memory).  Because
`parse_arguments` decodes *every* operand — including the destination — the
first instruction writes `10` to `memory[memory[5]] = memory[0]` and the
second writes `memory[5] = 0` to `memory[memory[6]] = memory[0]` again, so
the run finishes with `memory[5] = 0` and `memory[6] = 0`, not `10`. -/
theorem c1_counterexample :
    ((assemble_tokens
        [Token.name "mov", Token.address 5, Token.number 10, Token.newline,
         Token.name "mov", Token.address 6, Token.address 5, Token.newline]
        AssemblerState.META).map
      (fun p =>
        ((start_program_thread (zeroContext p) 0 false 3).isFinished,
         (start_program_thread (zeroContext p) 0 false 3).ctx.memory.get? 5,
         (start_program_thread (zeroContext p) 0 false 3).ctx.memory.get? 6))
      = .ok (true, some 0, some 0)) ∧
    ¬ ((assemble_tokens
        [Token.name "mov", Token.address 5, Token.number 10, Token.newline,
         Token.name "mov", Token.address 6, Token.address 5, Token.newline]
        AssemblerState.META).map
      (fun p =>
        ((start_program_thread (zeroContext p) 0 false 3).isFinished,
         (start_program_thread (zeroContext p) 0 false 3).ctx.memory.get? 5,
         (start_program_thread (zeroContext p) 0 false 3).ctx.memory.get? 6))
      = .ok (true, some 10, some 10)) := by
  exact ⟨by decide, by decide⟩

set_option maxRecDepth 8000 in
/-- C1 (amended): the two-instruction program with literal destination
operands — `mov 5 10` followed by `mov 6 $5` — assembles (default meta) and
executes on zero-filled memory to a clean finish with `memory[5] = 10` and
`memory[6] = 10`. -/
theorem c1_amended :
    (assemble_tokens
        [Token.name "mov", Token.number 5, Token.number 10, Token.newline,
         Token.name "mov", Token.number 6, Token.address 5, Token.newline]
        AssemblerState.META).map
      (fun p =>
        ((start_program_thread (zeroContext p) 0 false 3).isFinished,
         (start_program_thread (zeroContext p) 0 false 3).ctx.memory.get? 5,
         (start_program_thread (zeroContext p) 0 false 3).ctx.memory.get? 6))
      = .ok (true, some 10, some 10) := by decide

/-- Counterexample to C6 as stated: the token stream of
`log 1` / `#memory 64` / `#memory 32` — a meta-variable override appearing
after an instruction (but before any label), overriding the same key twice.
Per the claim this must be a fatal error; the assembler instead accepts it
and the last override wins (`meta.memory = 32`). -/
theorem c6_counterexample :
    assemble_tokens
        [Token.name "log", Token.number 1, Token.newline,
         Token.metaVariable "memory", Token.number 64, Token.newline,
         Token.metaVariable "memory", Token.number 32, Token.newline]
        AssemblerState.META =
      .ok ⟨⟨32, 100, 100, 60⟩, [⟨Op.log, [Arg.lit 1], none⟩], none, none, .absent, none, none⟩ := by
  decide

/-- C6 (amended): meta-variable overrides are accepted exactly while the
collection loop is in the `META` state: in the `PROCEDURES` state any
meta-variable token is a fatal error; in the `META` state a known key
followed by a number is accepted — with no once-per-key restriction, a later
override simply overwriting the earlier value — and the state stays `META`
(instructions do not end the header; see the counterexample); the transition
to `PROCEDURES` happens exactly at a label declaration. -/
theorem c6_amended :
    (∀ (name : String) (rest : List Token) (fuel : Nat) (meta : MetaData)
        (labels : List (String × Nat)) (raws : List (Op × List Token)) (idx : Nat),
      phase1 (fuel + 1) (Token.metaVariable name :: rest)
          ⟨AssemblerState.PROCEDURES, meta, labels, raws, idx⟩ = .error .metaOutsideHeader) ∧
    (∀ (name : String) (v : Int) (rest' : List Token) (fuel : Nat) (meta : MetaData)
        (labels : List (String × Nat)) (raws : List (Op × List Token)) (idx : Nat),
      phase1 (fuel + 1) (Token.metaVariable name :: Token.number v :: rest')
          ⟨AssemblerState.META, meta, labels, raws, idx⟩ =
        if metaHasKey name then
          phase1 fuel rest' ⟨AssemblerState.META, metaSet meta name v, labels, raws, idx⟩
        else .error (.unknownMetaVariable name)) ∧
    (∀ (s : String) (rest : List Token) (fuel : Nat) (cs : AssemblerState) (meta : MetaData)
        (labels : List (String × Nat)) (raws : List (Op × List Token)) (idx : Nat),
      phase1 (fuel + 1) (Token.labelName s :: rest) ⟨cs, meta, labels, raws, idx⟩ =
        if (labels.lookup s).isSome then
          phase1 fuel rest ⟨AssemblerState.PROCEDURES, meta, labels, raws, idx⟩
        else
          phase1 fuel rest ⟨AssemblerState.PROCEDURES, meta, labels ++ [(s, idx)], raws, idx⟩) := by
  refine ⟨fun name rest fuel meta labels raws idx => rfl, ?_, ?_⟩
  · intro name v rest' fuel meta labels raws idx
    by_cases h : metaHasKey name <;> simp [phase1, h]
  · intro s rest fuel cs meta labels raws idx
    by_cases h : (labels.lookup s).isSome <;> simp [phase1, h]

theorem map_except_ok_mem_rev {f : α → Except ε β} :
    ∀ {xs : List α} {ys : List β}, map_except f xs = .ok ys →
      ∀ y ∈ ys, ∃ x ∈ xs, f x = .ok y := by
  intro xs
  induction xs with
  | nil =>
    intro ys h y hy
    simp only [map_except, Except.ok.injEq] at h
    subst h
    simp at hy
  | cons a as ih =>
    intro ys h y hy
    obtain ⟨b, ys', h1, h2, h3⟩ := map_except_cons_ok h
    subst h3
    rcases List.mem_cons.mp hy with hb | hys
    · exact ⟨a, List.mem_cons_self a as, hb ▸ h1⟩
    · obtain ⟨x, hx, hfx⟩ := ih h2 y hys
      exact ⟨x, List.mem_cons_of_mem a hx, hfx⟩

/-- Invariant of the collection loop: it only ever appends raw instructions
whose collected operand-token count passed the arity check. -/
theorem phase1_raw_arity :
    ∀ (fuel : Nat) (l : List Token) (st st' : AsmState),
      phase1 fuel l st = .ok st' →
      (∀ ri ∈ st.raw_instructions, ri.2.length = ARGUMENT_COUNT_LOOKUP ri.1) →
      ∀ ri ∈ st'.raw_instructions, ri.2.length = ARGUMENT_COUNT_LOOKUP ri.1 := by
  intro fuel
  induction fuel with
  | zero => intro l st st' h; simp [phase1] at h
  | succ fuel ih =>
    intro l st st' h hinv
    match l with
    | [] =>
      simp only [phase1, Except.ok.injEq] at h
      subst h
      exact hinv
    | .metaVariable name :: rest =>
      simp only [phase1] at h
      split at h
      · exact absurd h (by simp)
      · split at h
        · split at h
          · exact ih _ _ _ h hinv
          · exact absurd h (by simp)
          · exact absurd h (by simp)
        · exact absurd h (by simp)
    | .labelName s :: rest =>
      simp only [phase1] at h
      split at h
      · exact ih _ _ _ h hinv
      · exact ih _ _ _ h hinv
    | .name s :: rest =>
      simp only [phase1] at h
      split at h
      · exact absurd h (by simp)
      · split at h
        · exact absurd h (by simp)
        · rename_i op hop args rest' hgun
          split at h
          · exact absurd h (by simp)
          · rename_i hlen
            refine ih _ _ _ h ?_
            intro ri hri
            rcases List.mem_append.mp hri with hold | hnew
            · exact hinv ri hold
            · rcases List.mem_singleton.mp hnew with rfl
              simpa using Decidable.not_not.mp (by exact hlen)
    | .number n :: rest =>
      simp only [phase1] at h
      exact absurd h (by simp)
    | .address n :: rest =>
      simp only [phase1] at h
      exact absurd h (by simp)
    | .comment :: rest =>
      simp only [phase1] at h
      exact ih _ _ _ h hinv
    | .newline :: rest =>
      simp only [phase1] at h
      exact ih _ _ _ h hinv

/-- C5: every instruction the assembler emits has an operand count exactly
equal to the static arity table's value for its opcode, and that table reads
`mov,movp,not,jmp,point ↦ 2`, `add,sub,mul,div,mod,less,equal,color ↦ 3`,
`line,rect ↦ 4`, `log ↦ 1`; a line whose collected operand count differs is
rejected before a raw instruction is ever recorded, so no instruction with
mismatched arity is constructed. -/
theorem c5_arity_invariant (tokens : List Token) (cs : AssemblerState) (out : ProgramData)
    (h : assemble_tokens tokens cs = .ok out) :
    (∀ inst ∈ out.instructions, inst.args.length = ARGUMENT_COUNT_LOOKUP inst.name) ∧
    (ARGUMENT_COUNT_LOOKUP .mov = 2 ∧ ARGUMENT_COUNT_LOOKUP .movp = 2 ∧
     ARGUMENT_COUNT_LOOKUP .not = 2 ∧ ARGUMENT_COUNT_LOOKUP .jmp = 2 ∧
     ARGUMENT_COUNT_LOOKUP .point = 2 ∧ ARGUMENT_COUNT_LOOKUP .add = 3 ∧
     ARGUMENT_COUNT_LOOKUP .sub = 3 ∧ ARGUMENT_COUNT_LOOKUP .mul = 3 ∧
     ARGUMENT_COUNT_LOOKUP .div = 3 ∧ ARGUMENT_COUNT_LOOKUP .mod = 3 ∧
     ARGUMENT_COUNT_LOOKUP .less = 3 ∧ ARGUMENT_COUNT_LOOKUP .equal = 3 ∧
     ARGUMENT_COUNT_LOOKUP .color = 3 ∧ ARGUMENT_COUNT_LOOKUP .line = 4 ∧
     ARGUMENT_COUNT_LOOKUP .rect = 4 ∧ ARGUMENT_COUNT_LOOKUP .log = 1) := by
  refine ⟨?_, by decide⟩
  intro inst hinst
  unfold assemble_tokens at h
  cases hp : phase1 (tokens.length + 1) tokens (init_asm_state cs) with
  | error e => rw [hp] at h; simp [Bind.bind, Except.bind] at h
  | ok st =>
    rw [hp] at h
    simp only [Bind.bind, Except.bind] at h
    cases hm : map_except (resolve_instruction st.labels) st.raw_instructions with
    | error e => rw [hm] at h; simp at h
    | ok instrs =>
      rw [hm] at h
      simp only [Except.ok.injEq] at h
      subst h
      simp only at hinst
      obtain ⟨ri, hri, hres⟩ := map_except_ok_mem_rev hm inst hinst
      unfold resolve_instruction at hres
      cases ha : map_except (parse_argument_token st.labels) ri.2 with
      | error e => rw [ha] at hres; simp [Bind.bind, Except.bind] at hres
      | ok args =>
        rw [ha] at hres
        simp only [Bind.bind, Except.bind, Except.ok.injEq] at hres
        subst hres
        simp only
        rw [map_except_ok_length ha]
        exact phase1_raw_arity _ _ _ _ hp (by simp [init_asm_state]) ri hri

/-- C7: during operand resolution the label table is the one collected from
the entire token stream (phase 1 has consumed the whole stream before any
argument is resolved — `hp` and `hout` refer to the same full-stream table),
so every label declared anywhere in the file, including after the
referencing instruction, is visible.  Whenever assembly succeeds, a bare
`NAME` operand token must have been found in that table and resolves to the
label's instruction index as a `Literal`; contrapositively, a `NAME` that is
not a declared label anywhere in the file can never yield an assembled
program — it is always a fatal error, never an address or untouched
literal. -/
theorem c7_label_resolution (tokens : List Token) (cs : AssemblerState) (st : AsmState)
    (i j : Nat) (ri : Op × List Token) (s : String) (out : ProgramData)
    (hp : phase1 (tokens.length + 1) tokens (init_asm_state cs) = .ok st)
    (hri : st.raw_instructions.get? i = some ri)
    (hj : ri.2.get? j = some (Token.name s))
    (hout : assemble_tokens tokens cs = .ok out) :
    (st.labels.lookup s).isSome = true ∧
    (out.instructions.get? i).map Instruction.name = some ri.1 ∧
    (out.instructions.get? i).bind (fun inst => inst.args.get? j) =
      (st.labels.lookup s).map (fun k => Arg.lit (k : Int)) := by
  unfold assemble_tokens at hout
  rw [hp] at hout
  simp only [Bind.bind, Except.bind] at hout
  cases hm : map_except (resolve_instruction st.labels) st.raw_instructions with
  | error e => rw [hm] at hout; simp at hout
  | ok instrs =>
    rw [hm] at hout
    simp only [Except.ok.injEq] at hout
    subst hout
    obtain ⟨inst, hres, hget⟩ := map_except_ok_get hm i ri hri
    unfold resolve_instruction at hres
    cases ha : map_except (parse_argument_token st.labels) ri.2 with
    | error e => rw [ha] at hres; simp [Bind.bind, Except.bind] at hres
    | ok args =>
      rw [ha] at hres
      simp only [Bind.bind, Except.bind, Except.ok.injEq] at hres
      obtain ⟨arg, harg, hargget⟩ := map_except_ok_get ha j (Token.name s) hj
      cases hk : st.labels.lookup s with
      | none =>
        rw [parse_argument_token] at harg
        rw [hk] at harg
        simp at harg
      | some k =>
        rw [parse_argument_token] at harg
        rw [hk] at harg
        simp only [Except.ok.injEq] at harg
        subst harg
        refine ⟨by simp, ?_, ?_⟩
        · simp only [hget, Option.map_some', ← hres]
        · simp only [hget, Option.bind_some, ← hres]
          simpa using hargget

/-- Witness for C5: the assembled one-line program `log 5` has a `log`
instruction with exactly 1 operand, the table arity of `log`. -/
theorem c5_arity_invariant_witness :
    (⟨Op.log, [Arg.lit 5], none⟩ : Instruction).args.length = ARGUMENT_COUNT_LOOKUP Op.log :=
  (c5_arity_invariant [Token.name "log", Token.number 5, Token.newline] .META
      ⟨META_VARIABLES, [⟨Op.log, [Arg.lit 5], none⟩], none, none, .absent, none, none⟩
      (by decide)).1
    ⟨Op.log, [Arg.lit 5], none⟩ (by decide)

/-- Witness for C7: the program `jmp end 1` / `log 0` / `end:` — the label
`end` is declared after the referencing instruction yet resolves, and the
jump's first operand becomes the literal instruction index 2. -/
theorem c7_label_resolution_witness :
    (([("end", 2)] : List (String × Nat)).lookup "end").isSome = true ∧
    ((⟨META_VARIABLES, [⟨Op.jmp, [Arg.lit 2, Arg.lit 1], none⟩, ⟨Op.log, [Arg.lit 0], none⟩],
        none, none, .absent, none, none⟩ : ProgramData).instructions.get? 0).map Instruction.name =
      some Op.jmp ∧
    ((⟨META_VARIABLES, [⟨Op.jmp, [Arg.lit 2, Arg.lit 1], none⟩, ⟨Op.log, [Arg.lit 0], none⟩],
        none, none, .absent, none, none⟩ : ProgramData).instructions.get? 0).bind
        (fun inst => inst.args.get? 0) =
      (([("end", 2)] : List (String × Nat)).lookup "end").map (fun k => Arg.lit (k : Int)) :=
  c7_label_resolution
    [Token.name "jmp", Token.name "end", Token.number 1, Token.newline,
     Token.name "log", Token.number 0, Token.newline, Token.labelName "end"]
    .META
    ⟨AssemblerState.PROCEDURES, META_VARIABLES, [("end", 2)],
      [(Op.jmp, [Token.name "end", Token.number 1]), (Op.log, [Token.number 0])], 2⟩
    0 0 (Op.jmp, [Token.name "end", Token.number 1]) "end"
    ⟨META_VARIABLES, [⟨Op.jmp, [Arg.lit 2, Arg.lit 1], none⟩, ⟨Op.log, [Arg.lit 0], none⟩],
      none, none, .absent, none, none⟩
    (by decide) (by decide) (by decide) (by decide)

/-- Counterexample to C8 as stated: (a) on a malformed data line `parse_data`
returns `None` and the assembler does not abort — it attaches the `None`
result as the program's `data` field and assembly continues; (b) an `F`-type
entry whose span exceeds the memory capacity (address 120, 3 values, memory
8) does not fail the data-load step at all: `F` entries bypass the capacity
check. -/
theorem c8_counterexample :
    parse_data (fun _ => none) 128 [DataLine.malformed] = none ∧
    (assemble_with_data ⟨META_VARIABLES, [], none, none, .absent, none, none⟩
        (parse_data (fun _ => none) 128 [DataLine.malformed])).data = DataField.null ∧
    parse_data (fun p => if p = "big" then some ⟨[1, 2, 3], [1, 2, 3]⟩ else none) 8
        [DataLine.fileRawLine 120 "big"] = some [⟨120, [1, 2, 3]⟩] := by
  exact ⟨rfl, rfl, by decide⟩

/-- Auxiliary: `add_data_entry` succeeds exactly on entries within capacity. -/
theorem add_data_entry_eq (ms : Nat) (e : DataEntry) :
    add_data_entry ms e = decide (e.address + e.values.length ≤ ms) := by
  by_cases h : e.address + e.values.length ≤ ms
  · simp [add_data_entry, h, Nat.not_lt.mpr h]
  · simp [add_data_entry, h, Nat.lt_of_not_le h]

/-- C8 (amended): the data-load step is all-or-nothing — `parse_data` returns
a list exactly when every line is loadable (not malformed, valid hex, files
present, and for `b`/`s`/`f` entries `address + len(values) ≤ meta.memory`;
`F`-type entries bypass the capacity check), and otherwise returns `None`
with no partial subset of entries; on such a failure the assembler does not
abort: it stores the null result as the program's `data` field (which the VM
then treats as no data) and assembly continues. -/
theorem c8_data_load (fs : String → Option GFile) (memory_size : Nat) (lines : List DataLine) :
    ((parse_data fs memory_size lines).isSome = lines.all (data_line_ok fs memory_size)) ∧
    (∀ p : ProgramData, (assemble_with_data p (parse_data fs memory_size lines)).data =
      match parse_data fs memory_size lines with
      | none => DataField.null
      | some l => DataField.entries l) := by
  constructor
  · induction lines with
    | nil => rfl
    | cons dataLine rest ih =>
      match dataLine with
      | .malformed => simp [parse_data, data_line_ok]
      | .byteLine a payload =>
        match payload with
        | .invalid => simp [parse_data, data_line_ok]
        | .valid bytes =>
          simp only [parse_data, data_line_ok, add_data_entry_eq, List.length_map,
            List.all_cons]
          by_cases hb : a + bytes.length ≤ memory_size
          · simp [hb, ih]
          · simp [hb]
      | .stringLine a chars =>
        simp only [parse_data, data_line_ok, add_data_entry_eq, List.length_cons,
          List.length_map, List.all_cons]
        by_cases hb : a + (chars.length + 1) ≤ memory_size
        · simp only [Nat.add_comm chars.length 1] at hb ⊢
          simp [hb, ih, Nat.add_assoc]
        · simp only [Nat.add_comm chars.length 1] at hb ⊢
          simp [hb, Nat.add_assoc]
      | .fileLine a path =>
        cases hf : fs path with
        | none => simp [parse_data, data_line_ok, hf]
        | some f =>
          simp only [parse_data, data_line_ok, hf, add_data_entry_eq, List.all_cons]
          by_cases hb : a + f.decoded.length ≤ memory_size
          · simp [hb, ih]
          · simp [hb]
      | .fileRawLine a path =>
        cases hf : fs path with
        | none => simp [parse_data, data_line_ok, hf]
        | some f => simp [parse_data, data_line_ok, hf, ih]
  · intro p
    unfold assemble_with_data
    cases parse_data fs memory_size lines <;> rfl

theorem takeByte_cons (b : Nat) (rest : List Nat) : takeByte (b :: rest) = some (b, rest) := rfl

theorem bind_some_eq (a : α) (f : α → Option β) : (some a >>= f) = f a := rfl

theorem takeByte_u8 (n : Nat) (h : n < 256) (rest : List Nat) :
    takeByte (u8bytes n ++ rest) = some (n, rest) := by
  simp [takeByte, u8bytes, Nat.mod_eq_of_lt h]

theorem takeU16_u16 (n : Nat) (h : n < 65536) (rest : List Nat) :
    takeU16 (u16bytes n ++ rest) = some (n, rest) := by
  simp only [takeU16, u16bytes, List.cons_append, List.nil_append, takeByte, Option.bind_eq_bind,
    Option.some_bind, Option.some.injEq, Prod.mk.injEq]
  exact ⟨by omega, trivial⟩

theorem takeU32_u32 (n : Nat) (h : n < 4294967296) (rest : List Nat) :
    takeU32 (u32bytes n ++ rest) = some (n, rest) := by
  simp only [takeU32, u32bytes, List.cons_append, List.nil_append, takeByte, Option.bind_eq_bind,
    Option.some_bind, Option.some.injEq, Prod.mk.injEq]
  exact ⟨by omega, trivial⟩

theorem takeI32_i32 (z : Int) (h1 : -2147483648 ≤ z) (h2 : z < 2147483648) (rest : List Nat) :
    takeI32 (i32bytes z ++ rest) = some (z, rest) := by
  have hmod1 : (0 : Int) ≤ z % 4294967296 := Int.emod_nonneg z (by norm_num)
  have hmod2 : z % 4294967296 < 4294967296 := Int.emod_lt_of_pos z (by norm_num)
  have hlt : (z % 4294967296).toNat < 4294967296 := by omega
  unfold takeI32 i32bytes
  rw [takeU32_u32 _ hlt]
  simp only [Option.bind_eq_bind, Option.some_bind, Option.some.injEq, Prod.mk.injEq]
  refine ⟨?_, trivial⟩
  split <;> omega

theorem map_option_cons_some {f : α → Option β} {x : α} {xs : List α} {ys : List β}
    (h : map_option f (x :: xs) = some ys) :
    ∃ y ys', f x = some y ∧ map_option f xs = some ys' ∧ ys = y :: ys' := by
  simp only [map_option] at h
  cases hfx : f x with
  | none => rw [hfx] at h; simp at h
  | some y =>
    rw [hfx] at h
    cases hxs : map_option f xs with
    | none => rw [hxs] at h; simp at h
    | some ys' =>
      rw [hxs] at h
      simp only [Option.some.injEq] at h
      subst h
      exact ⟨y, ys', rfl, rfl, rfl⟩

theorem map_option_isSome {f : α → Option β} :
    ∀ {xs : List α}, (∀ x ∈ xs, (f x).isSome) → (map_option f xs).isSome := by
  intro xs
  induction xs with
  | nil => intro _; simp [map_option]
  | cons x xs ih =>
    intro h
    have hx := h x (List.mem_cons_self x xs)
    cases hfx : f x with
    | none => rw [hfx] at hx; simp at hx
    | some y =>
      have hxs := ih (fun a ha => h a (List.mem_cons_of_mem x ha))
      cases hm : map_option f xs with
      | none => rw [hm] at hxs; simp at hxs
      | some ys => simp [map_option, hfx, hm]

/-- Decoding a concatenation of `n` well-understood item encodings, where the
item encoder may itself be fallible. -/
theorem takeN_append_opt {dec : List Nat → Option (α × List Nat)}
    {encO : β → Option (List Nat)} {conv : β → α} :
    ∀ (xs : List β) (ls : List (List Nat)) (rest : List Nat),
      map_option encO xs = some ls →
      (∀ x ∈ xs, ∀ bs, encO x = some bs → ∀ r, dec (bs ++ r) = some (conv x, r)) →
      takeN dec xs.length (ls.flatten ++ rest) = some (xs.map conv, rest) := by
  intro xs
  induction xs with
  | nil =>
    intro ls rest hm _
    simp only [map_option, Option.some.injEq] at hm
    subst hm
    simp [takeN]
  | cons x xs ih =>
    intro ls rest hm hdec
    obtain ⟨bs, ls', hbs, hls', hcons⟩ := map_option_cons_some hm
    subst hcons
    simp only [List.length_cons, List.flatten_cons, takeN, List.append_assoc]
    rw [hdec x (List.mem_cons_self x xs) bs hbs]
    simp only [Option.bind_eq_bind, Option.some_bind]
    rw [ih ls' rest hls' (fun a ha bs' hbs' r => hdec a (List.mem_cons_of_mem x ha) bs' hbs' r)]
    rfl

/-- Special case: an infallible item encoder. -/
theorem takeN_append {dec : List Nat → Option (α × List Nat)}
    {enc : β → List Nat} {conv : β → α}
    (xs : List β) (rest : List Nat)
    (hdec : ∀ x ∈ xs, ∀ r, dec (enc x ++ r) = some (conv x, r)) :
    takeN dec xs.length ((xs.map enc).flatten ++ rest) = some (xs.map conv, rest) := by
  induction xs with
  | nil => simp [takeN]
  | cons x xs ih =>
    simp only [List.length_cons, List.map_cons, List.flatten_cons, takeN, List.append_assoc]
    rw [hdec x (List.mem_cons_self x xs)]
    simp only [Option.bind_eq_bind, Option.some_bind]
    rw [ih (fun a ha r => hdec a (List.mem_cons_of_mem x ha) r)]
    rfl

theorem instruction_ids_lt (op : Op) : INSTRUCTION_IDS op < 256 := by
  cases op <;> decide

theorem instructions_get_id (op : Op) : INSTRUCTIONS.get? (INSTRUCTION_IDS op) = some op := by
  cases op <;> rfl

theorem argument_counts_get_id (op : Op) :
    ARGUMENT_COUNTS.get? (INSTRUCTION_IDS op) = some (ARGUMENT_COUNT_LOOKUP op) := by
  cases op <;> rfl

theorem takeArgument_encodeArg (a : Arg) (ha : ValidArg a) :
    ∀ bs, encodeArg a = some bs → ∀ r, takeArgument (bs ++ r) = some (a, r) := by
  intro bs hbs r
  match a with
  | .lit n =>
    simp only [encodeArg, Option.some.injEq] at hbs
    subst hbs
    obtain ⟨h1, h2⟩ := ha
    rw [List.append_assoc]
    unfold takeArgument
    rw [takeByte_u8 ARG_TYPE_LITERAL (by decide)]
    simp only [Option.bind_eq_bind, Option.some_bind]
    rw [takeI32_i32 n h1 h2 r]
    rfl
  | .addr n =>
    simp only [encodeArg, Option.some.injEq] at hbs
    subst hbs
    obtain ⟨h1, h2⟩ := ha
    rw [List.append_assoc]
    unfold takeArgument
    rw [takeByte_u8 ARG_TYPE_ADDRESS (by decide)]
    simp only [Option.bind_eq_bind, Option.some_bind]
    rw [takeI32_i32 n h1 h2 r]
    rfl
  | .raw s => simp [encodeArg] at hbs

theorem encodeInstruction_isSome (i : Instruction) (hi : ValidInstruction i) :
    (encodeInstruction i).isSome := by
  have hargs : (map_option encodeArg i.args).isSome := by
    refine map_option_isSome (fun a ha => ?_)
    have hv := hi.1 a ha
    match a with
    | .lit n => simp [encodeArg]
    | .addr n => simp [encodeArg]
    | .raw s => exact absurd hv (by simp [ValidArg])
  unfold encodeInstruction
  cases hm : map_option encodeArg i.args with
  | none => rw [hm] at hargs; simp at hargs
  | some ls => simp [hm]

theorem takeInstruction_encodeInstruction (i : Instruction) (hi : ValidInstruction i) :
    ∀ bs, encodeInstruction i = some bs → ∀ r,
      takeInstruction (bs ++ r) = some (⟨i.name, i.args, none⟩, r) := by
  intro bs hbs r
  unfold encodeInstruction at hbs
  cases hm : map_option encodeArg i.args with
  | none => rw [hm] at hbs; simp at hbs
  | some argBs =>
    rw [hm] at hbs
    simp only [Option.bind_eq_bind, Option.some_bind, Option.some.injEq] at hbs
    subst hbs
    rw [List.append_assoc]
    unfold takeInstruction
    rw [takeByte_u8 _ (instruction_ids_lt i.name)]
    simp only [Option.bind_eq_bind, Option.some_bind]
    rw [instructions_get_id i.name, argument_counts_get_id i.name]
    simp only [Option.some_bind]
    rw [← hi.2]
    rw [takeN_append_opt i.args argBs r hm
      (fun a ha bs' hbs' r' => takeArgument_encodeArg a (hi.1 a ha) bs' hbs' r')]
    simp

theorem takeDataEntry_encodeDataEntry (e : DataEntry) (he : ValidDataEntry e) (r : List Nat) :
    takeDataEntry (encodeDataEntry e ++ r) = some (e, r) := by
  obtain ⟨h1, h2, h3⟩ := he
  unfold encodeDataEntry takeDataEntry
  rw [List.append_assoc, List.append_assoc]
  rw [takeU32_u32 _ h1]
  simp only [Option.bind_eq_bind, Option.some_bind]
  rw [takeU32_u32 _ h2]
  simp only [Option.some_bind]
  rw [takeN_append e.values r (fun v hv r' => takeI32_i32 v (h3 v hv).1 (h3 v hv).2 r')]
  simp

set_option maxHeartbeats 1000000 in
/-- Decoding the exact byte chain that `g1_build` emits reconstructs the
program, with debug fields dropped and the `-1` sentinels mapped back to
absence. -/
theorem parse_build_bytes (meta : MetaData) (tick start : Option Int)
    (instructions : List Instruction) (instrBs : List (List Nat)) (dl : List DataEntry)
    (hmem : 0 ≤ meta.memory ∧ meta.memory < 4294967296)
    (hw : 0 ≤ meta.width ∧ meta.width < 65536)
    (hh : 0 ≤ meta.height ∧ meta.height < 65536)
    (htr : 0 ≤ meta.tickrate ∧ meta.tickrate < 65536)
    (htick : ∀ t ∈ tick, -2147483648 ≤ t ∧ t < 2147483648)
    (hstart : ∀ s ∈ start, -2147483648 ≤ s ∧ s < 2147483648)
    (hicount : instructions.length < 4294967296)
    (hinstrs : ∀ i ∈ instructions, ValidInstruction i)
    (hmi : map_option encodeInstruction instructions = some instrBs)
    (hdcount : dl.length < 4294967296)
    (hdval : ∀ e ∈ dl, ValidDataEntry e) :
    parse_to_program_data
        ([103, 49]
          ++ u32bytes meta.memory.toNat
          ++ u16bytes meta.width.toNat
          ++ u16bytes meta.height.toNat
          ++ u16bytes meta.tickrate.toNat
          ++ i32bytes (tick.getD (-1))
          ++ i32bytes (start.getD (-1))
          ++ u32bytes instructions.length
          ++ instrBs.flatten
          ++ u32bytes dl.length
          ++ (dl.map encodeDataEntry).flatten) =
      some { meta := meta
             instructions := instructions.map (fun i => ⟨i.name, i.args, none⟩)
             tick := if tick = some (-1) then none else tick
             start := if start = some (-1) then none else start
             data := match dl with
               | [] => DataField.absent
               | e :: l => DataField.entries (e :: l)
             source := none
             data_entry_count := match dl with
               | [] => none
               | e :: l => some (((e :: l).length : Nat) : Int) } := by
  have htick1 : -2147483648 ≤ tick.getD (-1) ∧ tick.getD (-1) < 2147483648 := by
    cases tick with
    | none => constructor <;> norm_num
    | some t => simpa using htick t (by simp)
  have hstart1 : -2147483648 ≤ start.getD (-1) ∧ start.getD (-1) < 2147483648 := by
    cases start with
    | none => constructor <;> norm_num
    | some s => simpa using hstart s (by simp)
  have hmemN : meta.memory.toNat < 4294967296 := by omega
  have hwN : meta.width.toNat < 65536 := by omega
  have hhN : meta.height.toNat < 65536 := by omega
  have htrN : meta.tickrate.toNat < 65536 := by omega
  simp only [List.append_assoc, List.cons_append, List.nil_append]
  unfold parse_to_program_data
  rw [takeByte_cons]
  simp only [bind_some_eq]
  rw [takeByte_cons]
  simp only [bind_some_eq]
  rw [if_pos (by simp)]
  rw [takeU32_u32 _ hmemN]
  simp only [bind_some_eq]
  rw [takeU16_u16 _ hwN]
  simp only [bind_some_eq]
  rw [takeU16_u16 _ hhN]
  simp only [bind_some_eq]
  rw [takeU16_u16 _ htrN]
  simp only [bind_some_eq]
  rw [takeI32_i32 _ htick1.1 htick1.2]
  simp only [bind_some_eq]
  rw [takeI32_i32 _ hstart1.1 hstart1.2]
  simp only [bind_some_eq]
  rw [takeU32_u32 _ hicount]
  simp only [bind_some_eq]
  rw [takeN_append_opt instructions instrBs _ hmi
    (fun i hi bs hbs r => takeInstruction_encodeInstruction i (hinstrs i hi) bs hbs r)]
  simp only [bind_some_eq]
  rw [takeU32_u32 _ hdcount]
  simp only [bind_some_eq]
  rw [show (dl.map encodeDataEntry).flatten = (dl.map encodeDataEntry).flatten ++ []
    from (List.append_nil _).symm]
  rw [takeN_append dl [] (fun e he r => takeDataEntry_encodeDataEntry e (hdval e he) r)]
  simp only [bind_some_eq]
  have ht : (if tick.getD (-1) = -1 then none else some (tick.getD (-1))) =
      (if tick = some (-1) then none else tick) := by
    cases tick with
    | none => simp
    | some t => by_cases h : t = -1 <;> simp [h]
  have hs : (if start.getD (-1) = -1 then none else some (start.getD (-1))) =
      (if start = some (-1) then none else start) := by
    cases start with
    | none => simp
    | some s => by_cases h : s = -1 <;> simp [h]
  rw [ht, hs, Int.toNat_of_nonneg hmem.1, Int.toNat_of_nonneg hw.1, Int.toNat_of_nonneg hh.1,
    Int.toNat_of_nonneg htr.1]
  have hmapid : (List.map (fun e => e) dl) = dl := by simp
  rw [hmapid]
  cases dl with
  | nil => rfl
  | cons e l => rfl

/-- C2 (amended): for every valid Intermediate Program, encoding to the g1b
binary form succeeds and decoding the resulting bytes yields the program
back, modulo: a `tick`/`start` that is absent (or holds the `-1` sentinel)
serializing as `-1` and coming back absent, an absent or empty data section
serializing as entry count `0` and coming back absent, the debug-only
fields (source text, per-instruction line numbers) never being persisted —
and, when the data section is nonempty, a leftover `data_entry_count` field
on the decoded program, which the decoder deletes only in its empty-data
branch. -/
theorem c2_binary_roundtrip (p : ProgramData) (h : ValidProgram p) :
    (g1_build p).isSome = true ∧
    parse_to_program_data ((g1_build p).getD []) = some (normalize_program p) := by
  obtain ⟨hmem, hw, hh, htr, htick, hstart, hicount, hinstrs, hdata⟩ := h
  have hI : (map_option encodeInstruction p.instructions).isSome :=
    map_option_isSome (fun i hi => encodeInstruction_isSome i (hinstrs i hi))
  cases hmi : map_option encodeInstruction p.instructions with
  | none => rw [hmi] at hI; simp at hI
  | some instrBs =>
    cases hpd : p.data with
    | null => rw [hpd] at hdata; simp [ValidDataField] at hdata
    | absent =>
      have hbuild : g1_build p = some
          ([103, 49]
            ++ u32bytes p.meta.memory.toNat
            ++ u16bytes p.meta.width.toNat
            ++ u16bytes p.meta.height.toNat
            ++ u16bytes p.meta.tickrate.toNat
            ++ i32bytes (p.tick.getD (-1))
            ++ i32bytes (p.start.getD (-1))
            ++ u32bytes p.instructions.length
            ++ instrBs.flatten
            ++ u32bytes ([] : List DataEntry).length
            ++ (([] : List DataEntry).map encodeDataEntry).flatten) := by
        unfold g1_build
        rw [hmi, hpd]
        rfl
      refine ⟨by rw [hbuild]; rfl, ?_⟩
      rw [hbuild]
      simp only [Option.getD_some]
      rw [parse_build_bytes p.meta p.tick p.start p.instructions instrBs []
        hmem hw hh htr htick hstart hicount hinstrs hmi (by norm_num) (by simp)]
      unfold normalize_program
      rw [hpd]
    | entries l =>
      rw [hpd] at hdata
      have hdata' : l.length < 4294967296 ∧ ∀ e ∈ l, ValidDataEntry e := hdata
      obtain ⟨hlcount, hlval⟩ := hdata'
      have hbuild : g1_build p = some
          ([103, 49]
            ++ u32bytes p.meta.memory.toNat
            ++ u16bytes p.meta.width.toNat
            ++ u16bytes p.meta.height.toNat
            ++ u16bytes p.meta.tickrate.toNat
            ++ i32bytes (p.tick.getD (-1))
            ++ i32bytes (p.start.getD (-1))
            ++ u32bytes p.instructions.length
            ++ instrBs.flatten
            ++ u32bytes l.length
            ++ (l.map encodeDataEntry).flatten) := by
        unfold g1_build
        rw [hmi, hpd]
        rfl
      refine ⟨by rw [hbuild]; rfl, ?_⟩
      rw [hbuild]
      simp only [Option.getD_some]
      rw [parse_build_bytes p.meta p.tick p.start p.instructions instrBs l
        hmem hw hh htr htick hstart hicount hinstrs hmi hlcount hlval]
      unfold normalize_program
      rw [hpd]
      cases l with
      | nil => rfl
      | cons e l' => rfl

/-- Witness for C2: a concrete program exercising every modulo clause — a
debug line number and source text (dropped), `tick = 0` (kept), absent
`start` (serialized as `-1`, back to absent), a data entry with a negative
value, and both literal and address arguments. -/
theorem c2_binary_roundtrip_witness :
    (g1_build
        ⟨⟨128, 100, 100, 60⟩,
          [⟨Op.mov, [Arg.lit 5, Arg.lit 10], none⟩, ⟨Op.jmp, [Arg.lit 0, Arg.addr 3], some 4⟩],
          some 0, none, .entries [⟨20, [1, -1, 3]⟩], some ["x"], none⟩).isSome = true ∧
    parse_to_program_data
        ((g1_build
          ⟨⟨128, 100, 100, 60⟩,
            [⟨Op.mov, [Arg.lit 5, Arg.lit 10], none⟩, ⟨Op.jmp, [Arg.lit 0, Arg.addr 3], some 4⟩],
            some 0, none, .entries [⟨20, [1, -1, 3]⟩], some ["x"], none⟩).getD []) =
      some (normalize_program
        ⟨⟨128, 100, 100, 60⟩,
          [⟨Op.mov, [Arg.lit 5, Arg.lit 10], none⟩, ⟨Op.jmp, [Arg.lit 0, Arg.addr 3], some 4⟩],
          some 0, none, .entries [⟨20, [1, -1, 3]⟩], some ["x"], none⟩) :=
  c2_binary_roundtrip
    ⟨⟨128, 100, 100, 60⟩,
      [⟨Op.mov, [Arg.lit 5, Arg.lit 10], none⟩, ⟨Op.jmp, [Arg.lit 0, Arg.addr 3], some 4⟩],
      some 0, none, .entries [⟨20, [1, -1, 3]⟩], some ["x"], none⟩
    (by decide)

/-- Counterexample to C2 as stated: a valid program with one data entry.
Decoding its encoding is NOT the input modulo only the claim's three listed
normalizations (`normalize_program_claimed`): because the data section is
nonempty, the decoder keeps the `data_entry_count` key (value 1) that the
input lacks. -/
theorem c2_counterexample :
    (parse_to_program_data
        ((g1_build ⟨⟨128, 100, 100, 60⟩, [], none, none, .entries [⟨0, [7]⟩], none, none⟩).getD
          [])).map ProgramData.data_entry_count = some (some 1) ∧
    (normalize_program_claimed
        ⟨⟨128, 100, 100, 60⟩, [], none, none, .entries [⟨0, [7]⟩], none, none⟩).data_entry_count
      = none ∧
    parse_to_program_data
        ((g1_build ⟨⟨128, 100, 100, 60⟩, [], none, none, .entries [⟨0, [7]⟩], none, none⟩).getD
          []) ≠
      some (normalize_program_claimed
        ⟨⟨128, 100, 100, 60⟩, [], none, none, .entries [⟨0, [7]⟩], none, none⟩) := by
  exact ⟨by decide, rfl, by decide⟩
